import Mathlib

/-!
Verification of the tic-tac-toe game-state engine in `src/main.rs`.

The source is shallowly embedded as follows:
* Rust `char` is Lean `Char`; the constants `PLAYER_X`, `PLAYER_O`, `EMPTY`
  are the same characters.
* `Player` is the two-constructor enum, with `toggle` and `from_char`.
  `Player::from_char` declares the return type `Option<Player>` but its
  wildcard arm executes `panic!("Invalid player character")`; panicking is
  modelled by `Except.error` carrying the panic message, so the embedded
  `Player.from_char` has type `Char → Except String (Option Player)`.
* `Game` holds the board, a 3x3 grid of characters modelled as a function
  `Fin 3 → Fin 3 → Char`, plus the current player.
* Rust indexing `self.board[x][y]` with `usize` coordinates panics when out
  of range; `Game.play_move` therefore takes `Nat` coordinates and returns
  `Option (Game × Bool)`, `none` modelling the out-of-bounds panic and
  `some (g, r)` the new state and the returned boolean.
* `Game.check_winner` unrolls the source's `for i in 0..3` loop in the exact
  order the source checks lines: row i then column i for i = 0, 1, 2, then
  the main diagonal, then the anti-diagonal.  `Some(Player::from_char(c)).flatten()`
  equals `Player::from_char(c)`, so each winning branch returns the embedded
  `Player.from_char` value directly.
* `Game.is_full` and the `Display` instance (`Game.render`) follow the source
  line by line; all embedded operations are pure Lean functions, which is
  faithful because the Rust originals take `&self` and mutate nothing.
-/

/-- `const PLAYER_X: char = 'X';` -/
def PLAYER_X : Char := 'X'

/-- `const PLAYER_O: char = 'O';` -/
def PLAYER_O : Char := 'O'

/-- `const EMPTY: char = ' ';` -/
def EMPTY : Char := ' '

/-- The `Player` enum of the source. -/
inductive Player where
  | X : Player
  | O : Player
deriving DecidableEq

/-- `Player::toggle`. -/
def Player.toggle : Player → Player
  | .X => .O
  | .O => .X

/-- `Player::from_char`.  The Rust function returns `Option<Player>` but its
wildcard arm is `panic!("Invalid player character")`; the panic is modelled
as `Except.error` with the panic message. -/
def Player.from_char (c : Char) : Except String (Option Player) :=
  if c = PLAYER_X then .ok (some .X)
  else if c = PLAYER_O then .ok (some .O)
  else .error "Invalid player character"

/-- The character the source writes for a player: the `match` in
`play_move` (`Player::X => PLAYER_X, Player::O => PLAYER_O`), which agrees
with the `Display` instance for `Player`. -/
def Player.toChar : Player → Char
  | .X => PLAYER_X
  | .O => PLAYER_O

/-- The 3x3 board of characters, `[[char; 3]; 3]`. -/
abbrev Board := Fin 3 → Fin 3 → Char

/-- Writing a single cell of the board, the effect of
`self.board[x][y] = c` once both indices are known to be in range. -/
def setCell (b : Board) (x y : Fin 3) (c : Char) : Board :=
  fun i j => if i = x ∧ j = y then c else b i j

/-- The `Game` struct of the source. -/
structure Game where
  board : Board
  current_player : Player

/-- `Game::new`: an all-`EMPTY` board with the given starting player. -/
def Game.new (start_player : Player) : Game :=
  { board := fun _ _ => EMPTY, current_player := start_player }

/-- `Game::play_move`.  The two `Nat` coordinates are first checked against
the board bounds (Rust indexing panics out of range, modelled by `none`);
in range, the source's branch on `self.board[x][y] == EMPTY` either writes
the current player's character, toggles the player and returns `true`, or
leaves the state untouched and returns `false`. -/
def Game.play_move (g : Game) (x y : Nat) : Option (Game × Bool) :=
  if hx : x < 3 then
    if hy : y < 3 then
      if g.board ⟨x, hx⟩ ⟨y, hy⟩ = EMPTY then
        some ({ board := setCell g.board ⟨x, hx⟩ ⟨y, hy⟩ g.current_player.toChar,
                current_player := g.current_player.toggle }, true)
      else
        some (g, false)
    else none
  else none

/-- `Game::check_winner`, with the `for i in 0..3` loop unrolled in source
order: row 0, column 0, row 1, column 1, row 2, column 2, main diagonal,
anti-diagonal.  Each winning branch returns
`Some(Player::from_char(cell)).flatten() = Player::from_char(cell)`. -/
def Game.check_winner (g : Game) : Except String (Option Player) :=
  if g.board 0 0 = g.board 0 1 ∧ g.board 0 1 = g.board 0 2 ∧ g.board 0 0 ≠ EMPTY then
    Player.from_char (g.board 0 0)
  else if g.board 0 0 = g.board 1 0 ∧ g.board 1 0 = g.board 2 0 ∧ g.board 0 0 ≠ EMPTY then
    Player.from_char (g.board 0 0)
  else if g.board 1 0 = g.board 1 1 ∧ g.board 1 1 = g.board 1 2 ∧ g.board 1 0 ≠ EMPTY then
    Player.from_char (g.board 1 0)
  else if g.board 0 1 = g.board 1 1 ∧ g.board 1 1 = g.board 2 1 ∧ g.board 0 1 ≠ EMPTY then
    Player.from_char (g.board 0 1)
  else if g.board 2 0 = g.board 2 1 ∧ g.board 2 1 = g.board 2 2 ∧ g.board 2 0 ≠ EMPTY then
    Player.from_char (g.board 2 0)
  else if g.board 0 2 = g.board 1 2 ∧ g.board 1 2 = g.board 2 2 ∧ g.board 0 2 ≠ EMPTY then
    Player.from_char (g.board 0 2)
  else if g.board 0 0 = g.board 1 1 ∧ g.board 1 1 = g.board 2 2 ∧ g.board 0 0 ≠ EMPTY then
    Player.from_char (g.board 0 0)
  else if g.board 0 2 = g.board 1 1 ∧ g.board 1 1 = g.board 2 0 ∧ g.board 0 2 ≠ EMPTY then
    Player.from_char (g.board 0 2)
  else
    .ok none

/-- `Game::is_full`: every cell differs from `EMPTY`. -/
def Game.is_full (g : Game) : Bool :=
  (List.finRange 3).all fun i => (List.finRange 3).all fun j => g.board i j != EMPTY

/-- A one-character string, how `write!` renders a `char` cell. -/
def charStr (c : Char) : String := String.mk [c]

/-- The `Display` instance for `Game`: for each row in order,
`writeln!(f, "{} | {} | {}", row[0], row[1], row[2])`. -/
def Game.render (g : Game) : String :=
  charStr (g.board 0 0) ++ " | " ++ charStr (g.board 0 1) ++ " | " ++ charStr (g.board 0 2) ++ "\n" ++
  (charStr (g.board 1 0) ++ " | " ++ charStr (g.board 1 1) ++ " | " ++ charStr (g.board 1 2) ++ "\n" ++
  (charStr (g.board 2 0) ++ " | " ++ charStr (g.board 2 1) ++ " | " ++ charStr (g.board 2 2) ++ "\n"))

/-- The starting-player computation of `main` (line 128):
`Player::from_char(args.start_player).unwrap_or(Player::X)`.  The `Except`
propagates `from_char`'s panic; on a non-panicking result, `unwrap_or`
replaces `None` with `Player::X`. -/
def main_start_player (c : Char) : Except String Player :=
  (Player.from_char c).map fun o => o.getD Player.X

/-- Specification predicate (spec section 3): every cell holds `Empty` or a
Mark, i.e. one of the characters `X`, `O`, space. -/
def validBoard (b : Board) : Prop :=
  ∀ i j, b i j = PLAYER_X ∨ b i j = PLAYER_O ∨ b i j = EMPTY

/-- Specification predicate (spec section 4.1 `winner()`): some row, column
or diagonal has all three cells equal to `m`'s character. -/
def winsAt (b : Board) (m : Player) : Prop :=
  (∃ i : Fin 3, b i 0 = m.toChar ∧ b i 1 = m.toChar ∧ b i 2 = m.toChar) ∨
  (∃ j : Fin 3, b 0 j = m.toChar ∧ b 1 j = m.toChar ∧ b 2 j = m.toChar) ∨
  (b 0 0 = m.toChar ∧ b 1 1 = m.toChar ∧ b 2 2 = m.toChar) ∨
  (b 0 2 = m.toChar ∧ b 1 1 = m.toChar ∧ b 2 0 = m.toChar)

/-- One successful placement: `play_move` must return `true` (a refused
move stops the run). -/
def stepMove (g : Game) (m : Fin 3 × Fin 3) : Option Game :=
  (g.play_move m.1.val m.2.val).bind fun p => if p.2 then some p.1 else none

/-- Running a whole sequence of placements, each of which must succeed. -/
def runMoves (g : Game) : List (Fin 3 × Fin 3) → Option Game
  | [] => some g
  | m :: ms =>
    match stepMove g m with
    | some g' => runMoves g' ms
    | none => none

/-- The games reachable from `Game::new` by `play_move` calls with in-range
coordinates (the command loop rejects coordinates above 2 before calling). -/
inductive Reachable : Game → Prop where
  | new (p : Player) : Reachable (Game.new p)
  | step {g g' : Game} {x y : Nat} {r : Bool} :
      Reachable g → x ≤ 2 → y ≤ 2 → g.play_move x y = some (g', r) → Reachable g'

/-- Rendering as the spec words it (spec section 6): three lines in row
order, each line the row's three cells separated by the delimiter,
terminated by a newline as `writeln!` produces. -/
def renderSpec (g : Game) : String :=
  String.intercalate "\n"
    ((List.finRange 3).map fun i =>
      String.intercalate " | " ((List.finRange 3).map fun j => charStr (g.board i j))) ++ "\n"

instance (b : Board) : Decidable (validBoard b) := by
  unfold validBoard; infer_instance

instance (b : Board) (m : Player) : Decidable (winsAt b m) := by
  unfold winsAt; infer_instance

/-- Example board: row 1 filled with `X`, everything else empty. -/
def bRowX : Board := fun i _ => if i = 1 then PLAYER_X else EMPTY

/-- Example board extending `bRowX` by filling row 0 with `O`. -/
def bRowXO : Board := fun i _ => if i = 1 then PLAYER_X else if i = 0 then PLAYER_O else EMPTY

/-- Example board of spec Scenario A: top row `X X X`, row 1 `O O _`. -/
def bA : Board := fun i j =>
  if i = 0 then PLAYER_X else if i = 1 ∧ j ≠ 2 then PLAYER_O else EMPTY

/-! ## Helper lemmas shared by the claim theorems -/

theorem Player.toChar_ne_empty (m : Player) : m.toChar ≠ EMPTY := by
  cases m <;> decide

theorem Player.from_char_eq_ok_some {c : Char} {m : Player} :
    Player.from_char c = .ok (some m) ↔ c = m.toChar := by
  constructor
  · intro h
    unfold Player.from_char at h
    split_ifs at h with h1 h2
    · cases m <;> simp_all [Player.toChar]
    · cases m <;> simp_all [Player.toChar]
  · intro h
    subst h
    cases m <;> rfl

theorem Player.from_char_ne_ok_none (c : Char) : Player.from_char c ≠ .ok none := by
  unfold Player.from_char
  split_ifs <;> simp

theorem Player.from_char_ok_of_valid {c : Char}
    (hv : c = PLAYER_X ∨ c = PLAYER_O ∨ c = EMPTY) (h : c ≠ EMPTY) :
    ∃ r, Player.from_char c = .ok r := by
  rcases hv with h' | h' | h'
  · exact ⟨some Player.X, by rw [h']; rfl⟩
  · exact ⟨some Player.O, by rw [h']; rfl⟩
  · exact absurd h' h

theorem play_move_empty (g : Game) (x y : Fin 3) (h : g.board x y = EMPTY) :
    g.play_move x.val y.val =
      some ({ board := setCell g.board x y g.current_player.toChar,
              current_player := g.current_player.toggle }, true) := by
  simp [Game.play_move, x.isLt, y.isLt, Fin.eta, h]

theorem play_move_occupied (g : Game) (x y : Fin 3) (h : g.board x y ≠ EMPTY) :
    g.play_move x.val y.val = some (g, false) := by
  simp [Game.play_move, x.isLt, y.isLt, Fin.eta, h]

theorem setCell_same (b : Board) (x y : Fin 3) (c : Char) : setCell b x y c x y = c := by
  simp [setCell]

theorem setCell_other (b : Board) (x y : Fin 3) (c : Char) {i j : Fin 3}
    (h : ¬(i = x ∧ j = y)) : setCell b x y c i j = b i j := by
  simp [setCell, h]

theorem check_winner_sound {g : Game} {m : Player}
    (h : g.check_winner = .ok (some m)) : winsAt g.board m := by
  unfold Game.check_winner at h
  split_ifs at h with h1 h2 h3 h4 h5 h6 h7 h8 <;>
    [skip; skip; skip; skip; skip; skip; skip; skip; exact absurd h (by simp)] <;>
    rw [Player.from_char_eq_ok_some] at h
  · exact Or.inl ⟨0, h, h1.1 ▸ h, (h1.1.trans h1.2.1) ▸ h⟩
  · exact Or.inr (Or.inl ⟨0, h, h2.1 ▸ h, (h2.1.trans h2.2.1) ▸ h⟩)
  · exact Or.inl ⟨1, h, h3.1 ▸ h, (h3.1.trans h3.2.1) ▸ h⟩
  · exact Or.inr (Or.inl ⟨1, h, h4.1 ▸ h, (h4.1.trans h4.2.1) ▸ h⟩)
  · exact Or.inl ⟨2, h, h5.1 ▸ h, (h5.1.trans h5.2.1) ▸ h⟩
  · exact Or.inr (Or.inl ⟨2, h, h6.1 ▸ h, (h6.1.trans h6.2.1) ▸ h⟩)
  · exact Or.inr (Or.inr (Or.inl ⟨h, h7.1 ▸ h, (h7.1.trans h7.2.1) ▸ h⟩))
  · exact Or.inr (Or.inr (Or.inr ⟨h, h8.1 ▸ h, (h8.1.trans h8.2.1) ▸ h⟩))

theorem check_winner_ok_of_valid {g : Game} (hv : validBoard g.board) :
    ∃ r, g.check_winner = .ok r := by
  unfold Game.check_winner
  split_ifs with h1 h2 h3 h4 h5 h6 h7 h8
  · exact Player.from_char_ok_of_valid (hv 0 0) h1.2.2
  · exact Player.from_char_ok_of_valid (hv 0 0) h2.2.2
  · exact Player.from_char_ok_of_valid (hv 1 0) h3.2.2
  · exact Player.from_char_ok_of_valid (hv 0 1) h4.2.2
  · exact Player.from_char_ok_of_valid (hv 2 0) h5.2.2
  · exact Player.from_char_ok_of_valid (hv 0 2) h6.2.2
  · exact Player.from_char_ok_of_valid (hv 0 0) h7.2.2
  · exact Player.from_char_ok_of_valid (hv 0 2) h8.2.2
  · exact ⟨none, rfl⟩

theorem check_winner_none {g : Game} (h : g.check_winner = .ok none)
    (m : Player) : ¬ winsAt g.board m := by
  unfold Game.check_winner at h
  split_ifs at h with h1 h2 h3 h4 h5 h6 h7 h8 <;>
    first
      | exact absurd h (Player.from_char_ne_ok_none _)
      | skip
  intro hw
  rcases hw with ⟨i, c1, c2, c3⟩ | ⟨j, c1, c2, c3⟩ | ⟨c1, c2, c3⟩ | ⟨c1, c2, c3⟩
  · fin_cases i
    · exact h1 ⟨c1.trans c2.symm, c2.trans c3.symm, fun he => m.toChar_ne_empty (c1.symm.trans he)⟩
    · exact h3 ⟨c1.trans c2.symm, c2.trans c3.symm, fun he => m.toChar_ne_empty (c1.symm.trans he)⟩
    · exact h5 ⟨c1.trans c2.symm, c2.trans c3.symm, fun he => m.toChar_ne_empty (c1.symm.trans he)⟩
  · fin_cases j
    · exact h2 ⟨c1.trans c2.symm, c2.trans c3.symm, fun he => m.toChar_ne_empty (c1.symm.trans he)⟩
    · exact h4 ⟨c1.trans c2.symm, c2.trans c3.symm, fun he => m.toChar_ne_empty (c1.symm.trans he)⟩
    · exact h6 ⟨c1.trans c2.symm, c2.trans c3.symm, fun he => m.toChar_ne_empty (c1.symm.trans he)⟩
  · exact h7 ⟨c1.trans c2.symm, c2.trans c3.symm, fun he => m.toChar_ne_empty (c1.symm.trans he)⟩
  · exact h8 ⟨c1.trans c2.symm, c2.trans c3.symm, fun he => m.toChar_ne_empty (c1.symm.trans he)⟩

theorem stepMove_eq {g g' : Game} {m : Fin 3 × Fin 3} (h : stepMove g m = some g') :
    g.board m.1 m.2 = EMPTY ∧
    g' = { board := setCell g.board m.1 m.2 g.current_player.toChar,
           current_player := g.current_player.toggle } := by
  unfold stepMove at h
  by_cases he : g.board m.1 m.2 = EMPTY
  · rw [play_move_empty g m.1 m.2 he] at h
    simp at h
    exact ⟨he, h.symm⟩
  · rw [play_move_occupied g m.1 m.2 he] at h
    simp at h

theorem runMoves_current : ∀ (ms : List (Fin 3 × Fin 3)) (g g' : Game),
    runMoves g ms = some g' →
    g'.current_player = Player.toggle^[ms.length] g.current_player := by
  intro ms
  induction ms with
  | nil =>
    intro g g' h
    simp only [runMoves, Option.some.injEq] at h
    subst h
    simp
  | cons m ms ih =>
    intro g g' h
    unfold runMoves at h
    cases hs : stepMove g m with
    | none => rw [hs] at h; cases h
    | some g1 =>
      rw [hs] at h
      have ht : g1.current_player = g.current_player.toggle := by
        rw [(stepMove_eq hs).2]
      rw [ih g1 g' h, ht, List.length_cons, Function.iterate_succ_apply]

theorem valid_of_play_move {g g' : Game} {x y : Nat} {r : Bool}
    (hv : validBoard g.board) (h : g.play_move x y = some (g', r)) :
    validBoard g'.board := by
  unfold Game.play_move at h
  split_ifs at h with hx hy he <;> simp at h
  · obtain ⟨hg, -⟩ := h
    subst hg
    intro i j
    dsimp only
    by_cases hij : i = ⟨x, hx⟩ ∧ j = ⟨y, hy⟩
    · rw [hij.1, hij.2, setCell_same]
      cases g.current_player
      · exact Or.inl rfl
      · exact Or.inr (Or.inl rfl)
    · rw [setCell_other _ _ _ _ hij]
      exact hv i j
  · obtain ⟨hg, -⟩ := h
    subst hg
    exact hv

theorem reachable_valid {g : Game} (h : Reachable g) : validBoard g.board := by
  induction h with
  | new p => intro i j; exact Or.inr (Or.inr rfl)
  | step hg hx hy hpm ih => exact valid_of_play_move ih hpm

/-! ## Claim theorems -/

/-- C1: for every board and every in-range coordinate pair whose target cell
is `EMPTY`, `play_move` writes the active player's mark into exactly that
cell, toggles the active player, and returns success; the mark written
equals the mark active immediately before the placement and every other
cell is untouched.  Consequently, over any sequence of placements onto
distinct empty cells (each returning success, as `runMoves` demands), the
active mark strictly alternates: after `n` successes it is the `n`-fold
toggle of the initial mark. -/
theorem play_move_empty_succeeds (g : Game) (x y : Fin 3) (h : g.board x y = EMPTY) :
    (∃ g', g.play_move x.val y.val = some (g', true) ∧
      g'.board x y = g.current_player.toChar ∧
      g'.current_player = g.current_player.toggle ∧
      ∀ i j : Fin 3, ¬(i = x ∧ j = y) → g'.board i j = g.board i j) ∧
    ∀ (ms : List (Fin 3 × Fin 3)) (g0 gn : Game), runMoves g0 ms = some gn →
      gn.current_player = Player.toggle^[ms.length] g0.current_player := by
  constructor
  · refine ⟨_, play_move_empty g x y h, setCell_same .., rfl, ?_⟩
    intro i j hij
    exact setCell_other _ _ _ _ hij
  · exact fun ms g0 gn hr => runMoves_current ms g0 gn hr

/-- Witness for C1 at the fresh game and cell (0,0). -/
theorem play_move_empty_succeeds_witness :
    (Game.new Player.X).board 0 0 = EMPTY ∧
    ((∃ g', (Game.new Player.X).play_move 0 0 = some (g', true) ∧
        g'.board 0 0 = (Game.new Player.X).current_player.toChar ∧
        g'.current_player = (Game.new Player.X).current_player.toggle ∧
        ∀ i j : Fin 3, ¬(i = 0 ∧ j = 0) → g'.board i j = (Game.new Player.X).board i j) ∧
      ∀ (ms : List (Fin 3 × Fin 3)) (g0 gn : Game), runMoves g0 ms = some gn →
        gn.current_player = Player.toggle^[ms.length] g0.current_player) :=
  ⟨rfl, play_move_empty_succeeds (Game.new Player.X) 0 0 rfl⟩

/-- C2: for every game state and in-range coordinate pair whose target cell
is occupied, `play_move` returns failure and the state returned is the
unchanged input state (no cell modified, player not toggled); calling it a
second time on the very same cell again returns the unchanged state and
failure. -/
theorem play_move_occupied_rejects (g : Game) (x y : Fin 3) (h : g.board x y ≠ EMPTY) :
    g.play_move x.val y.val = some (g, false) ∧
    ((g.play_move x.val y.val).bind fun p => p.1.play_move x.val y.val) = some (g, false) := by
  have h1 := play_move_occupied g x y h
  refine ⟨h1, ?_⟩
  rw [h1]
  exact h1

/-- Witness for C2: after `X` takes (1,1), a second placement at (1,1) is
rejected twice with the state unchanged. -/
theorem play_move_occupied_rejects_witness :
    (⟨bRowX, Player.O⟩ : Game).board 1 1 ≠ EMPTY ∧
    ((⟨bRowX, Player.O⟩ : Game).play_move 1 1 = some (⟨bRowX, Player.O⟩, false) ∧
      (((⟨bRowX, Player.O⟩ : Game).play_move 1 1).bind
        fun p => p.1.play_move 1 1) = some (⟨bRowX, Player.O⟩, false)) :=
  ⟨by decide, play_move_occupied_rejects ⟨bRowX, Player.O⟩ 1 1 (by decide)⟩

/-- C6: any `play_move` call that returns preserves the board-only-grows
invariant: no non-empty cell is changed (in particular none reverts to
`EMPTY`); on success exactly the targeted, previously empty cell changes,
receiving the active player's mark, and on failure the state is returned
unchanged. -/
theorem play_move_monotone_growth (g : Game) (x y : Nat) (g' : Game) (r : Bool)
    (h : g.play_move x y = some (g', r)) :
    (∀ i j : Fin 3, g.board i j ≠ EMPTY → g'.board i j = g.board i j) ∧
    (r = true → ∃ (hx : x < 3) (hy : y < 3),
      g.board ⟨x, hx⟩ ⟨y, hy⟩ = EMPTY ∧
      g'.board ⟨x, hx⟩ ⟨y, hy⟩ = g.current_player.toChar ∧
      ∀ i j : Fin 3, ¬(i = ⟨x, hx⟩ ∧ j = ⟨y, hy⟩) → g'.board i j = g.board i j) ∧
    (r = false → g' = g) := by
  unfold Game.play_move at h
  split_ifs at h with hx hy he <;> simp at h
  · obtain ⟨hg, hr⟩ := h
    subst hg
    subst hr
    refine ⟨?_, ?_, ?_⟩
    · intro i j hne
      dsimp only
      by_cases hij : i = ⟨x, hx⟩ ∧ j = ⟨y, hy⟩
      · rw [hij.1, hij.2] at hne
        exact absurd he hne
      · exact setCell_other _ _ _ _ hij
    · intro _
      exact ⟨hx, hy, he, setCell_same .., fun i j hij => setCell_other _ _ _ _ hij⟩
    · intro hf
      exact absurd hf (by decide)
  · obtain ⟨hg, hr⟩ := h
    subst hg
    subst hr
    exact ⟨fun i j _ => rfl, fun ht => absurd ht (by decide), fun _ => rfl⟩

/-- Witness for C6 at the fresh game and a successful move at (2,1). -/
theorem play_move_monotone_growth_witness :
    (Game.new Player.O).play_move 2 1 =
      some (⟨setCell (Game.new Player.O).board 2 1 PLAYER_O, Player.X⟩, true) ∧
    ((∀ i j : Fin 3, (Game.new Player.O).board i j ≠ EMPTY →
        (⟨setCell (Game.new Player.O).board 2 1 PLAYER_O, Player.X⟩ : Game).board i j =
          (Game.new Player.O).board i j) ∧
      (true = true → ∃ (hx : 2 < 3) (hy : 1 < 3),
        (Game.new Player.O).board ⟨2, hx⟩ ⟨1, hy⟩ = EMPTY ∧
        (⟨setCell (Game.new Player.O).board 2 1 PLAYER_O, Player.X⟩ : Game).board ⟨2, hx⟩ ⟨1, hy⟩ =
          (Game.new Player.O).current_player.toChar ∧
        ∀ i j : Fin 3, ¬(i = ⟨2, hx⟩ ∧ j = ⟨1, hy⟩) →
          (⟨setCell (Game.new Player.O).board 2 1 PLAYER_O, Player.X⟩ : Game).board i j =
            (Game.new Player.O).board i j) ∧
      (true = false → (⟨setCell (Game.new Player.O).board 2 1 PLAYER_O, Player.X⟩ : Game) =
        Game.new Player.O)) :=
  ⟨rfl, play_move_monotone_growth (Game.new Player.O) 2 1
    ⟨setCell (Game.new Player.O).board 2 1 PLAYER_O, Player.X⟩ true rfl⟩

/-- C7: under the contract precondition that both coordinates are at most 2,
`play_move` is total: it always returns a result (`some`), i.e. the
out-of-range/panic branch is unreachable. -/
theorem play_move_in_range_total (g : Game) (x y : Nat) (hx : x ≤ 2) (hy : y ≤ 2) :
    (g.play_move x y).isSome = true := by
  unfold Game.play_move
  rw [dif_pos (by omega : x < 3), dif_pos (by omega : y < 3)]
  split <;> rfl

/-- Witness for C7 on an occupied cell of a concrete board. -/
theorem play_move_in_range_total_witness :
    (1 : Nat) ≤ 2 ∧ (2 : Nat) ≤ 2 ∧
    ((⟨bRowX, Player.O⟩ : Game).play_move 1 2).isSome = true :=
  ⟨by decide, by decide,
    play_move_in_range_total ⟨bRowX, Player.O⟩ 1 2 (by decide) (by decide)⟩

/-- C3: on every board whose cells are all `X`, `O` or space, `check_winner`
returns normally (no panic), returns a player iff some row, column or
diagonal is filled with one player's mark, and any player it returns does
fill such a line.  It is a pure function of the state (Rust `&self`), so it
mutates nothing. -/
theorem check_winner_correct (g : Game) (hv : validBoard g.board) :
    ∃ r, g.check_winner = .ok r ∧
      ((∃ m, r = some m) ↔ ∃ m, winsAt g.board m) ∧
      ∀ m, r = some m → winsAt g.board m := by
  obtain ⟨r, hr⟩ := check_winner_ok_of_valid hv
  refine ⟨r, hr, ?_, ?_⟩
  · constructor
    · rintro ⟨m, rfl⟩
      exact ⟨m, check_winner_sound hr⟩
    · rintro ⟨m, hw⟩
      cases r with
      | none => exact absurd hw (check_winner_none hr m)
      | some mr => exact ⟨mr, rfl⟩
  · rintro m rfl
    exact check_winner_sound hr

/-- Witness for C3 on the Scenario A board (top row `X X X`). -/
theorem check_winner_correct_witness :
    validBoard bA ∧
    ∃ r, (⟨bA, Player.O⟩ : Game).check_winner = .ok r ∧
      ((∃ m, r = some m) ↔ ∃ m, winsAt bA m) ∧
      ∀ m, r = some m → winsAt bA m :=
  ⟨by decide, check_winner_correct ⟨bA, Player.O⟩ (by decide)⟩

/-- C5 counterexample: `bRowXO` is obtained from `bRowX` by filling empty
cells with marks and altering no existing cell, both boards are valid, and
`check_winner` reports winner `X` on `bRowX`; but on the superset board it
reports `O`, not the same winner `X` — the claim as stated is false. -/
theorem check_winner_not_monotone :
    (∀ i j, bRowX i j ≠ EMPTY → bRowXO i j = bRowX i j) ∧
    validBoard bRowX ∧ validBoard bRowXO ∧
    (⟨bRowX, Player.O⟩ : Game).check_winner = .ok (some Player.X) ∧
    (⟨bRowXO, Player.O⟩ : Game).check_winner = .ok (some Player.O) ∧
    ¬(⟨bRowXO, Player.O⟩ : Game).check_winner = .ok (some Player.X) := by
  refine ⟨by decide, by decide, by decide, rfl, rfl, ?_⟩
  intro hcontra
  rw [show (⟨bRowXO, Player.O⟩ : Game).check_winner = .ok (some Player.O) from rfl] at hcontra
  simp at hcontra

/-- C5 (amended): if `check_winner` reports winner `m` on a board, then on
every valid superset board obtained by filling additional cells with marks
without altering any existing cell, `m`'s original line still wins as a
line, and `check_winner` still reports a winner — though possibly a
different mark, if the added cells complete a line checked earlier in scan
order. -/
theorem check_winner_monotone_amended (g g' : Game) (m : Player)
    (hle : ∀ i j, g.board i j ≠ EMPTY → g'.board i j = g.board i j)
    (hv : validBoard g'.board)
    (hm : g.check_winner = .ok (some m)) :
    winsAt g'.board m ∧ ∃ m', g'.check_winner = .ok (some m') := by
  have keep : ∀ i j, g.board i j = m.toChar → g'.board i j = m.toChar :=
    fun i j hc =>
      (hle i j fun he => m.toChar_ne_empty (hc.symm.trans he)).trans hc
  have hw' : winsAt g'.board m := by
    rcases check_winner_sound hm with ⟨i, c1, c2, c3⟩ | ⟨j, c1, c2, c3⟩ |
      ⟨c1, c2, c3⟩ | ⟨c1, c2, c3⟩
    · exact Or.inl ⟨i, keep _ _ c1, keep _ _ c2, keep _ _ c3⟩
    · exact Or.inr (Or.inl ⟨j, keep _ _ c1, keep _ _ c2, keep _ _ c3⟩)
    · exact Or.inr (Or.inr (Or.inl ⟨keep _ _ c1, keep _ _ c2, keep _ _ c3⟩))
    · exact Or.inr (Or.inr (Or.inr ⟨keep _ _ c1, keep _ _ c2, keep _ _ c3⟩))
  refine ⟨hw', ?_⟩
  obtain ⟨r, hr⟩ := check_winner_ok_of_valid hv
  cases r with
  | none => exact absurd hw' (check_winner_none hr m)
  | some m' => exact ⟨m', hr⟩

/-- Witness for the amended C5 on the counterexample pair of boards. -/
theorem check_winner_monotone_amended_witness :
    (∀ i j, bRowX i j ≠ EMPTY → bRowXO i j = bRowX i j) ∧ validBoard bRowXO ∧
    (⟨bRowX, Player.O⟩ : Game).check_winner = .ok (some Player.X) ∧
    (winsAt bRowXO Player.X ∧
      ∃ m', (⟨bRowXO, Player.O⟩ : Game).check_winner = .ok (some m')) :=
  ⟨by decide, by decide, rfl,
    check_winner_monotone_amended ⟨bRowX, Player.O⟩ ⟨bRowXO, Player.O⟩ Player.X
      (by decide) (by decide) rfl⟩

/-- C8: `is_full` is true exactly when all 9 cells are non-empty, and a
freshly created game has a non-full board and no winner.  Both are pure
queries (Rust `&self`), so nothing is mutated. -/
theorem is_full_correct (g : Game) (p : Player) :
    (g.is_full = true ↔ ∀ i j : Fin 3, g.board i j ≠ EMPTY) ∧
    (Game.new p).is_full = false ∧
    (Game.new p).check_winner = .ok none := by
  refine ⟨?_, rfl, rfl⟩
  unfold Game.is_full
  simp [List.all_eq_true, List.mem_finRange]

/-- C10: every game reachable from `Game::new` by `play_move` calls with
in-range coordinates holds only `X`, `O` or space in each cell, so
`check_winner` never reaches the panicking wildcard arm of
`Player::from_char`: it always returns normally. -/
theorem reachable_boards_safe (g : Game) (h : Reachable g) :
    validBoard g.board ∧ ∃ r, g.check_winner = .ok r :=
  ⟨reachable_valid h, check_winner_ok_of_valid (reachable_valid h)⟩

/-- Witness for C10 at the game reached by playing (0,0) from a fresh game. -/
theorem reachable_boards_safe_witness :
    validBoard (⟨setCell (Game.new Player.X).board 0 0 PLAYER_X, Player.O⟩ : Game).board ∧
    ∃ r, (⟨setCell (Game.new Player.X).board 0 0 PLAYER_X, Player.O⟩ : Game).check_winner =
      .ok r :=
  reachable_boards_safe _
    (@Reachable.step (Game.new Player.X)
      ⟨setCell (Game.new Player.X).board 0 0 PLAYER_X, Player.O⟩ 0 0 true
      (Reachable.new Player.X) (by decide) (by decide) rfl)

/-- C4 (code bug): the spec's contract is that an unrecognized starting-mark
designator falls back to the default `X`, and `main` indeed writes
`unwrap_or(Player::X)`; but `Player::from_char` hits its wildcard arm
(modelled as `Except.error`) on any character other than `X`/`O` before the
fallback can apply, so the program crashes instead of defaulting.  At the
failing input `Z` the start-player computation propagates the panic; the
recognized designators behave as specified. -/
theorem start_player_invalid_designator :
    main_start_player 'Z' = .error "Invalid player character" ∧
    main_start_player 'X' = .ok Player.X ∧
    main_start_player 'O' = .ok Player.O :=
  ⟨rfl, rfl, rfl⟩

/-- C9: for every board with only `X`, `O` and space cells, the `Display`
instance output equals the spec's format — three lines in row order, each
the row's cells separated by the delimiter, as `renderSpec` states it — and
every character of the output is a cell character (`X`, `O` or space) or
part of the delimiter/line structure.  Rendering is a pure query (Rust
`&self`), so it mutates nothing. -/
theorem render_correct (g : Game) (hv : validBoard g.board) :
    g.render = renderSpec g ∧
    ∀ c ∈ g.render.data, c = PLAYER_X ∨ c = PLAYER_O ∨ c = EMPTY ∨ c = '|' ∨ c = '\n' := by
  constructor
  · simp [Game.render, renderSpec, List.finRange, String.intercalate,
      String.intercalate.go, String.append_assoc]
  · have hdata : g.render.data =
        [g.board 0 0, ' ', '|', ' ', g.board 0 1, ' ', '|', ' ', g.board 0 2, '\n',
         g.board 1 0, ' ', '|', ' ', g.board 1 1, ' ', '|', ' ', g.board 1 2, '\n',
         g.board 2 0, ' ', '|', ' ', g.board 2 1, ' ', '|', ' ', g.board 2 2, '\n'] := by
      simp [Game.render, charStr, String.data_append,
        show (" | ").data = [' ', '|', ' '] from rfl,
        show ("\n").data = ['\n'] from rfl]
    have hcell : ∀ i j : Fin 3,
        g.board i j = PLAYER_X ∨ g.board i j = PLAYER_O ∨ g.board i j = EMPTY ∨
          g.board i j = '|' ∨ g.board i j = '\n' := by
      intro i j
      rcases hv i j with h | h | h
      · exact Or.inl h
      · exact Or.inr (Or.inl h)
      · exact Or.inr (Or.inr (Or.inl h))
    intro c hc
    rw [hdata] at hc
    simp only [List.mem_cons, List.not_mem_nil, or_false] at hc
    rcases hc with rfl|rfl|rfl|rfl|rfl|rfl|rfl|rfl|rfl|rfl|rfl|rfl|rfl|rfl|rfl|
      rfl|rfl|rfl|rfl|rfl|rfl|rfl|rfl|rfl|rfl|rfl|rfl|rfl|rfl|rfl <;>
      first
        | exact hcell _ _
        | exact Or.inr (Or.inr (Or.inl rfl))
        | exact Or.inr (Or.inr (Or.inr (Or.inl rfl)))
        | exact Or.inr (Or.inr (Or.inr (Or.inr rfl)))

/-- Witness for C9 on the Scenario A board. -/
theorem render_correct_witness :
    validBoard bA ∧
    ((⟨bA, Player.X⟩ : Game).render = renderSpec ⟨bA, Player.X⟩ ∧
      ∀ c ∈ (⟨bA, Player.X⟩ : Game).render.data,
        c = PLAYER_X ∨ c = PLAYER_O ∨ c = EMPTY ∨ c = '|' ∨ c = '\n') :=
  ⟨by decide, render_correct ⟨bA, Player.X⟩ (by decide)⟩
